import Mathlib

/-!
Shallow embedding of the quiz leaderboard repositories
(`quizplay/quiz/repositories/leaderboard.py` and
`quizplay/quiz/repositories/quizplay.py`).

The repository methods are thin wrappers around the Redis sorted-set
commands ZADD, ZSCORE, ZREVRANK and ZREVRANGE, so the embedding models a
Redis server keyspace: a list of keys, each holding a sorted set.  A
sorted set is kept as the list of (member, score) pairs in the order
ZREV* commands traverse it: score descending and, for equal scores,
member descending in the byte-wise (lexicographic) order Redis uses to
compare members.  (For UTF-8 encoded members, byte-wise order coincides
with code-point lexicographic order, which is how member comparison is
modelled here.)  Negative start/stop indexes of ZREVRANGE denote offsets
from the end of the set, -1 being the last element, exactly as the Redis
range commands define them.

Scores are modelled as integers: the Python layer passes integer scores
to ZADD and converts results back with `int(...)`.
-/

namespace Quizplay

/-- Byte-wise lexicographic comparison of two member strings as lists of
code points, mirroring how Redis `memcmp`s members with equal score. -/
def charsLt : List Char → List Char → Bool
  | [], [] => false
  | [], _ :: _ => true
  | _ :: _, [] => false
  | a :: as, b :: bs =>
    if a.toNat < b.toNat then true
    else if b.toNat < a.toNat then false
    else charsLt as bs

/-- Member comparison used by Redis sorted sets to break score ties. -/
def memLt (a b : String) : Bool := charsLt a.data b.data

/-- An entry of a sorted set: (member, score). -/
abbrev Entry := String × Int

/-- `revLt a b` holds when entry `a` comes strictly before entry `b` in
the traversal order of the ZREV* commands: higher score first and, on a
score tie, the lexicographically greater member first. -/
def revLt (a b : Entry) : Bool := b.2 < a.2 || (a.2 == b.2 && memLt b.1 a.1)

/-- A sorted set is its list of entries in ZREV traversal order. -/
abbrev ZSet := List Entry

/-- Insert an entry at its place in the ZREV traversal order. -/
def insertRev (e : Entry) : ZSet → ZSet
  | [] => [e]
  | x :: xs => if revLt e x then e :: x :: xs else x :: insertRev e xs

/-- ZADD key member score (no flags): removes any existing entry of the
member and inserts the member with the new score at its ordered place. -/
def zadd (u : String) (s : Int) (z : ZSet) : ZSet :=
  insertRev (u, s) (z.filter (fun e => e.1 ≠ u))

/-- ZSCORE: the score of a member, or `none` when absent. -/
def zscore (u : String) : ZSet → Option Int
  | [] => none
  | e :: rest => if e.1 = u then some e.2 else zscore u rest

/-- ZREVRANK: 0-based position of a member in the ZREV traversal order,
or `none` when absent. -/
def zrevrank (u : String) : ZSet → Option Nat
  | [] => none
  | e :: rest => if e.1 = u then some 0 else (zrevrank u rest).map (· + 1)

/-- ZREVRANGE key start stop: the entries at positions start..stop
(inclusive) of the ZREV traversal order.  A negative index counts from
the end of the set (-1 = last element); out-of-range indexes are clamped
and never an error, an empty range yields the empty list. -/
def zrevrange (z : ZSet) (start stop : Int) : List Entry :=
  let n : Int := z.length
  let a : Int := max (if start < 0 then n + start else start) 0
  let b : Int := min (if stop < 0 then n + stop else stop) (n - 1)
  if a ≤ b then (z.drop a.toNat).take (b - a + 1).toNat else []

/-- The Redis keyspace: keys mapped to the sorted sets they hold.  A key
is present exactly when some write touched it. -/
abbrev Store := List (String × ZSet)

/-- The sorted set a key holds; a missing key reads as the empty set. -/
def getKey (k : String) : Store → ZSet
  | [] => []
  | e :: rest => if e.1 = k then e.2 else getKey k rest

/-- Replace the sorted set a key holds, creating the key if absent. -/
def setKey (k : String) (z : ZSet) : Store → Store
  | [] => [(k, z)]
  | e :: rest => if e.1 = k then (k, z) :: rest else e :: setKey k z rest

/-- The key of a quiz's leaderboard: `f"leaderboard:{quiz_id}"`. -/
def leaderboardKey (quizId : String) : String := "leaderboard:" ++ quizId

/-- `QuizPlayRepo.update_score`: ZADD on the quiz's leaderboard key. -/
def update_score (st : Store) (quizId userId : String) (score : Int) : Store :=
  let key := leaderboardKey quizId
  setKey key (zadd userId score (getKey key st)) st

/-- `LeaderBoardRepo.get_user_score`: ZSCORE, 0 when the reply is nil. -/
def get_user_score (st : Store) (quizId userId : String) : Int :=
  match zscore userId (getKey (leaderboardKey quizId) st) with
  | none => 0
  | some s => s

/-- `LeaderBoardRepo.get_user_rank`: ZREVRANK, -1 when the reply is nil. -/
def get_user_rank (st : Store) (quizId userId : String) : Int :=
  match zrevrank userId (getKey (leaderboardKey quizId) st) with
  | none => -1
  | some r => (r : Int)

/-- `LeaderBoardRepo.get_top_k_players`: ZREVRANGE key 0 (k-1). -/
def get_top_k_players (st : Store) (quizId : String) (k : Int) : List Entry :=
  zrevrange (getKey (leaderboardKey quizId) st) 0 (k - 1)

/-- `LeaderBoardRepo.get_m_users_around_rank`: ZREVRANGE key
(max(0, user_rank - m//2)) (user_rank + m//2), with Python floor
division `//`. -/
def get_m_users_around_rank (st : Store) (quizId : String) (userRank m : Int) :
    List Entry :=
  let start := max 0 (userRank - Int.fdiv m 2)
  let stop := userRank + Int.fdiv m 2
  zrevrange (getKey (leaderboardKey quizId) st) start stop

/-- The leaderboard entries of a quiz in ZREV traversal order. -/
def entriesOf (st : Store) (quizId : String) : ZSet :=
  getKey (leaderboardKey quizId) st

/-- The store reached from the empty keyspace by a sequence of
`update_score` calls, each given as (quiz_id, user_id, score). -/
def applyUpdates (ops : List (String × String × Int)) : Store :=
  ops.foldl (fun st op => update_score st op.1 op.2.1 op.2.2) []

/-- A sorted set is well formed when its entries are strictly ordered by
the ZREV traversal order. -/
def WF (z : ZSet) : Prop := z.Pairwise (fun a b => revLt a b = true)

instance : DecidablePred WF := fun z =>
  inferInstanceAs (Decidable (z.Pairwise _))

/-- The order-key comparison the specification asserts for the ranking:
score descending and, on a score tie, identifier ascending
(lexicographic).  Written from the spec's words, to be compared with the
order the code actually produces. -/
def specLt (a b : Entry) : Bool := b.2 < a.2 || (a.2 == b.2 && memLt a.1 b.1)

/-- Whether a key exists in the keyspace. -/
def hasKey (k : String) : Store → Bool
  | [] => false
  | e :: rest => e.1 = k || hasKey k rest

/-- The five operations the repositories expose. -/
inductive Op where
  | updateScore (quizId userId : String) (score : Int)
  | getScore (quizId userId : String)
  | getRank (quizId userId : String)
  | topK (quizId : String) (k : Int)
  | window (quizId : String) (userRank m : Int)

/-- The reply of an operation. -/
inductive OpResult where
  | done
  | int (i : Int)
  | seq (l : List Entry)
deriving DecidableEq

/-- State-passing interpreter of the operations against the keyspace.
`update_score` issues ZADD, which writes its key; the four read
operations issue only the read-only commands ZSCORE, ZREVRANK and
ZREVRANGE, which never modify the keyspace, so they return it as is. -/
def runOp (st : Store) : Op → OpResult × Store
  | Op.updateScore q u s => (OpResult.done, update_score st q u s)
  | Op.getScore q u => (OpResult.int (get_user_score st q u), st)
  | Op.getRank q u => (OpResult.int (get_user_rank st q u), st)
  | Op.topK q k => (OpResult.seq (get_top_k_players st q k), st)
  | Op.window q r m => (OpResult.seq (get_m_users_around_rank st q r m), st)

/-! ### Order lemmas for the member comparison -/

theorem charsLt_cons (a b : Char) (as bs : List Char) :
    charsLt (a :: as) (b :: bs) = true ↔
      a.toNat < b.toNat ∨ (a.toNat = b.toNat ∧ charsLt as bs = true) := by
  by_cases h1 : a.toNat < b.toNat
  · simp [charsLt, h1]
  · by_cases h2 : b.toNat < a.toNat
    · simp only [charsLt, if_neg h1, if_pos h2]
      constructor
      · intro h; cases h
      · rintro (h | ⟨h, -⟩) <;> omega
    · have he : a.toNat = b.toNat := by omega
      simp [charsLt, h1, h2, he]

theorem charsLt_irrefl : ∀ as, charsLt as as = false
  | [] => rfl
  | a :: as => by simp [charsLt, charsLt_irrefl as]

theorem charsLt_asymm : ∀ as bs, charsLt as bs = true → charsLt bs as = false
  | [], [] => by simp [charsLt]
  | [], _ :: _ => by simp [charsLt]
  | _ :: _, [] => by simp [charsLt]
  | a :: as, b :: bs => by
    intro h
    rw [charsLt_cons] at h
    rw [Bool.eq_false_iff, Ne, charsLt_cons]
    rintro (h2 | ⟨h2, hr2⟩)
    · omega
    · rcases h with h | ⟨he, hr⟩
      · omega
      · have := charsLt_asymm as bs hr
        simp [this] at hr2

theorem charsLt_trans : ∀ as bs cs, charsLt as bs = true → charsLt bs cs = true →
    charsLt as cs = true
  | [], [], _ => by simp [charsLt]
  | [], _ :: _, [] => by intro h1 h2; simp [charsLt] at h2
  | [], _ :: _, _ :: _ => by intro h1 h2; simp [charsLt]
  | _ :: _, [], _ => by intro h1 h2; simp [charsLt] at h1
  | _ :: _, _ :: _, [] => by intro h1 h2; simp [charsLt] at h2
  | a :: as, b :: bs, c :: cs => by
    intro h1 h2
    rw [charsLt_cons] at h1 h2 ⊢
    rcases h1 with h1 | ⟨h1e, h1r⟩
    · rcases h2 with h2 | ⟨h2e, h2r⟩
      · exact Or.inl (Nat.lt_trans h1 h2)
      · exact Or.inl (by omega)
    · rcases h2 with h2 | ⟨h2e, h2r⟩
      · exact Or.inl (by omega)
      · exact Or.inr ⟨h1e.trans h2e, charsLt_trans as bs cs h1r h2r⟩

theorem charsLt_eq_of_not : ∀ as bs, charsLt as bs = false → charsLt bs as = false →
    as = bs
  | [], [] => by intro _ _; rfl
  | [], _ :: _ => by simp [charsLt]
  | _ :: _, [] => by intro h1 h2; simp [charsLt] at h2
  | a :: as, b :: bs => by
    intro h1 h2
    have h1' : ¬ (a.toNat < b.toNat ∨ (a.toNat = b.toNat ∧ charsLt as bs = true)) := by
      rw [← charsLt_cons]; simp [h1]
    have h2' : ¬ (b.toNat < a.toNat ∨ (b.toNat = a.toNat ∧ charsLt bs as = true)) := by
      rw [← charsLt_cons]; simp [h2]
    push_neg at h1' h2'
    have he : a.toNat = b.toNat := by omega
    have hc : a = b := Char.eq_of_val_eq (UInt32.ext he)
    have hr : as = bs :=
      charsLt_eq_of_not as bs (by simpa using h1'.2 he) (by simpa using h2'.2 he.symm)
    rw [hc, hr]

theorem memLt_irrefl (a : String) : memLt a a = false := charsLt_irrefl a.data

theorem memLt_asymm {a b : String} (h : memLt a b = true) : memLt b a = false :=
  charsLt_asymm a.data b.data h

theorem memLt_trans {a b c : String} (h1 : memLt a b = true) (h2 : memLt b c = true) :
    memLt a c = true :=
  charsLt_trans a.data b.data c.data h1 h2

theorem memLt_eq_of_not {a b : String} (h1 : memLt a b = false) (h2 : memLt b a = false) :
    a = b :=
  String.ext (charsLt_eq_of_not a.data b.data h1 h2)

/-! ### Order lemmas for the ZREV entry order -/

theorem revLt_iff (a b : Entry) :
    revLt a b = true ↔ b.2 < a.2 ∨ (a.2 = b.2 ∧ memLt b.1 a.1 = true) := by
  simp [revLt]

theorem revLt_irrefl (a : Entry) : revLt a a = false := by
  simp [revLt, memLt_irrefl]

theorem revLt_asymm {a b : Entry} (h : revLt a b = true) : revLt b a = false := by
  rw [revLt_iff] at h
  rw [Bool.eq_false_iff, Ne, revLt_iff]
  rintro (h2 | ⟨h2e, h2m⟩)
  · rcases h with h | ⟨he, -⟩ <;> omega
  · rcases h with h | ⟨he, hm⟩
    · omega
    · simp [memLt_asymm hm] at h2m

theorem revLt_trans {a b c : Entry} (h1 : revLt a b = true) (h2 : revLt b c = true) :
    revLt a c = true := by
  rw [revLt_iff] at h1 h2 ⊢
  rcases h1 with h1 | ⟨h1e, h1m⟩
  · rcases h2 with h2 | ⟨h2e, -⟩
    · exact Or.inl (by omega)
    · exact Or.inl (by omega)
  · rcases h2 with h2 | ⟨h2e, h2m⟩
    · exact Or.inl (by omega)
    · exact Or.inr ⟨h1e.trans h2e, memLt_trans h2m h1m⟩

theorem revLt_connex {a b : Entry} (h : a.1 ≠ b.1) :
    revLt a b = true ∨ revLt b a = true := by
  rcases Int.lt_trichotomy a.2 b.2 with hs | hs | hs
  · exact Or.inr ((revLt_iff b a).mpr (Or.inl hs))
  · rcases Bool.eq_false_or_eq_true (memLt a.1 b.1) with hm | hm
    · exact Or.inr ((revLt_iff b a).mpr (Or.inr ⟨hs.symm, hm⟩))
    · rcases Bool.eq_false_or_eq_true (memLt b.1 a.1) with hm2 | hm2
      · exact Or.inl ((revLt_iff a b).mpr (Or.inr ⟨hs, hm2⟩))
      · exact absurd (memLt_eq_of_not hm hm2) h
  · exact Or.inl ((revLt_iff a b).mpr (Or.inl hs))

/-! ### Well-formedness of sorted sets under ZADD -/

theorem mem_insertRev {y e : Entry} : ∀ {z : ZSet}, y ∈ insertRev e z ↔ y = e ∨ y ∈ z
  | [] => by simp [insertRev]
  | x :: xs => by
    unfold insertRev
    by_cases h : revLt e x = true
    · simp [h]
    · simp [h, mem_insertRev (z := xs)]
      tauto

theorem wf_insertRev {e : Entry} : ∀ {z : ZSet}, WF z → (∀ x ∈ z, x.1 ≠ e.1) →
    WF (insertRev e z)
  | [], _, _ => List.pairwise_singleton _ e
  | x :: xs, hwf, hne => by
    rw [WF, List.pairwise_cons] at hwf
    unfold insertRev
    by_cases h : revLt e x = true
    · rw [if_pos h, WF, List.pairwise_cons]
      refine ⟨?_, List.pairwise_cons.mpr hwf⟩
      intro y hy
      rcases List.mem_cons.mp hy with rfl | hy
      · exact h
      · exact revLt_trans h (hwf.1 y hy)
    · rw [if_neg h, WF, List.pairwise_cons]
      constructor
      · intro y hy
        rcases mem_insertRev.mp hy with rfl | hy
        · rcases revLt_connex (hne x (by simp)) with hc | hc
          · exact hc
          · exact absurd hc h
        · exact hwf.1 y hy
      · exact wf_insertRev hwf.2 (fun x hx => hne x (by simp [hx]))

theorem wf_zadd (u : String) (s : Int) {z : ZSet} (h : WF z) : WF (zadd u s z) := by
  apply wf_insertRev (List.Pairwise.filter _ h)
  intro x hx
  rw [List.mem_filter] at hx
  simpa using hx.2

/-! ### Keyspace lemmas -/

theorem getKey_setKey_self (k : String) (z : ZSet) :
    ∀ st : Store, getKey k (setKey k z st) = z
  | [] => by simp [getKey, setKey]
  | e :: rest => by
    unfold setKey
    by_cases h : e.1 = k
    · simp [h, getKey]
    · simp [h, getKey, getKey_setKey_self k z rest]

theorem getKey_setKey_ne (k k' : String) (z : ZSet) (h : k' ≠ k) :
    ∀ st : Store, getKey k' (setKey k z st) = getKey k' st
  | [] => by simp [getKey, setKey, Ne.symm h]
  | e :: rest => by
    unfold setKey
    by_cases he : e.1 = k
    · simp [he, getKey, Ne.symm h]
    · simp [he, getKey, getKey_setKey_ne k k' z h rest]

theorem leaderboardKey_inj {q q' : String} (h : leaderboardKey q = leaderboardKey q') :
    q = q' := by
  have hd := congrArg String.data h
  rw [leaderboardKey, leaderboardKey, String.data_append, String.data_append] at hd
  exact String.ext (List.append_cancel_left hd)

/-- Invariant: every key of the store holds a well-formed sorted set. -/
def StoreWF (st : Store) : Prop := ∀ k, WF (getKey k st)

theorem storeWF_nil : StoreWF [] := fun _ => List.Pairwise.nil

theorem storeWF_update {st : Store} (h : StoreWF st) (q u : String) (s : Int) :
    StoreWF (update_score st q u s) := by
  intro k
  unfold update_score
  by_cases hk : k = leaderboardKey q
  · rw [hk, getKey_setKey_self]
    exact wf_zadd u s (h _)
  · rw [getKey_setKey_ne _ _ _ hk]
    exact h k

theorem storeWF_foldl : ∀ (ops : List (String × String × Int)) (st : Store),
    StoreWF st →
    StoreWF (ops.foldl (fun st op => update_score st op.1 op.2.1 op.2.2) st)
  | [], st, h => h
  | op :: ops, st, h =>
    storeWF_foldl ops _ (storeWF_update h op.1 op.2.1 op.2.2)

theorem storeWF_applyUpdates (ops : List (String × String × Int)) :
    StoreWF (applyUpdates ops) :=
  storeWF_foldl ops [] storeWF_nil

theorem wf_entriesOf_applyUpdates (ops : List (String × String × Int)) (q : String) :
    WF (entriesOf (applyUpdates ops) q) :=
  storeWF_applyUpdates ops _

/-! ### ZSCORE / ZREVRANK lemmas -/

theorem zscore_mem {u : String} {s : Int} : ∀ {z : ZSet}, zscore u z = some s →
    (u, s) ∈ z
  | [], h => by simp [zscore] at h
  | e :: rest, h => by
    unfold zscore at h
    by_cases he : e.1 = u
    · rw [if_pos he, Option.some_inj] at h
      exact List.mem_cons.mpr (Or.inl (by rw [← he, ← h]))
    · rw [if_neg he] at h
      exact List.mem_cons.mpr (Or.inr (zscore_mem h))

theorem zrevrank_eq_none {u : String} : ∀ {z : ZSet}, zscore u z = none →
    zrevrank u z = none
  | [], _ => rfl
  | e :: rest, h => by
    unfold zscore at h
    unfold zrevrank
    by_cases he : e.1 = u
    · rw [if_pos he] at h; cases h
    · rw [if_neg he] at h
      rw [if_neg he, zrevrank_eq_none h, Option.map_none']

theorem zrevrank_isSome {u : String} {s : Int} : ∀ {z : ZSet}, zscore u z = some s →
    ∃ i, zrevrank u z = some i
  | [], h => by simp [zscore] at h
  | e :: rest, h => by
    unfold zscore at h
    unfold zrevrank
    by_cases he : e.1 = u
    · exact ⟨0, by rw [if_pos he]⟩
    · rw [if_neg he] at h
      obtain ⟨j, hj⟩ := zrevrank_isSome h
      exact ⟨j + 1, by rw [if_neg he, hj, Option.map_some']⟩

theorem zrevrank_get {u : String} {s : Int} : ∀ {z : ZSet} {i : Nat},
    zrevrank u z = some i → zscore u z = some s →
    ∃ h : i < z.length, z.get ⟨i, h⟩ = (u, s)
  | [], i, hr, _ => by simp [zrevrank] at hr
  | e :: rest, i, hr, hs => by
    unfold zrevrank at hr
    unfold zscore at hs
    by_cases he : e.1 = u
    · rw [if_pos he, Option.some_inj] at hr
      rw [if_pos he, Option.some_inj] at hs
      refine ⟨by rw [← hr]; simp, ?_⟩
      cases hr
      have : e = (u, s) := Prod.ext he hs
      simpa using this
    · rw [if_neg he] at hr hs
      obtain ⟨j, hj, rfl⟩ := Option.map_eq_some'.mp hr
      obtain ⟨hlt, hget⟩ := zrevrank_get hj hs
      exact ⟨by simpa using Nat.succ_lt_succ hlt, by simpa using hget⟩

/-- Core order-statistics fact: the ZREVRANK of a present member equals
the number of entries strictly before its entry in the ZREV order. -/
theorem zrevrank_eq_countP {u : String} {s : Int} : ∀ {z : ZSet}, WF z →
    zscore u z = some s →
    zrevrank u z = some (z.countP (fun e => revLt e (u, s)))
  | [], _, hs => by simp [zscore] at hs
  | x :: rest, hwf, hs => by
    rw [WF, List.pairwise_cons] at hwf
    unfold zscore at hs
    unfold zrevrank
    by_cases hx : x.1 = u
    · rw [if_pos hx, Option.some_inj] at hs
      rw [if_pos hx, Option.some_inj]
      have hxe : x = (u, s) := Prod.ext hx hs
      have h0 : revLt x (u, s) = false := by
        rw [hxe]; exact revLt_irrefl (u, s)
      have hrest : rest.countP (fun e => revLt e (u, s)) = 0 := by
        rw [List.countP_eq_zero]
        intro y hy
        have := hwf.1 y hy
        rw [hxe] at this
        simp [revLt_asymm this]
      rw [List.countP_cons, hrest]
      simp [h0]
    · rw [if_neg hx] at hs
      rw [if_neg hx, zrevrank_eq_countP hwf.2 hs, Option.map_some', Option.some_inj]
      have hmem : (u, s) ∈ rest := zscore_mem hs
      have hx2 : revLt x (u, s) = true := hwf.1 _ hmem
      rw [List.countP_cons]
      simp [hx2]

/-! ### ZREVRANGE lemmas -/

theorem zrevrange_sublist (z : ZSet) (a b : Int) : (zrevrange z a b).Sublist z := by
  unfold zrevrange
  simp only
  have key : ∀ (c : Prop) [Decidable c] (x : List Entry), x.Sublist z →
      (if c then x else []).Sublist z := by
    intro c _ x hx
    split
    · exact hx
    · exact List.nil_sublist z
  exact key _ _ ((List.take_sublist _ _).trans (List.drop_sublist _ _))

theorem wf_zrevrange {z : ZSet} (h : WF z) (a b : Int) : WF (zrevrange z a b) :=
  List.Pairwise.sublist (zrevrange_sublist z a b) h

theorem zrevrange_zero_nonneg {z : ZSet} {b : Int} (hb : 0 ≤ b) :
    zrevrange z 0 b = z.take (b + 1).toNat := by
  unfold zrevrange
  simp only
  rw [if_neg (by omega : ¬ (0 : Int) < 0), if_neg (by omega : ¬ b < 0)]
  by_cases hn : (z.length : Int) = 0
  · have hz : z = [] := List.length_eq_zero.mp (by exact_mod_cast hn)
    subst hz
    simp
  · have hn1 : (1 : Int) ≤ z.length := by
      have := Int.natCast_nonneg z.length
      omega
    rw [if_pos (by omega : max (0 : Int) 0 ≤ min b ((z.length : Int) - 1))]
    have harg : (min b ((z.length : Int) - 1) - max (0 : Int) 0 + 1) = min (b + 1) z.length := by
      omega
    rw [harg]
    rw [max_self, Int.toNat_zero, List.drop_zero]
    rw [List.take_eq_take]
    omega

theorem zrevrange_zero_neg {z : ZSet} {b : Int} (hb : b < 0) :
    zrevrange z 0 b = z.take ((z.length : Int) + b + 1).toNat := by
  unfold zrevrange
  simp only
  rw [if_neg (by omega : ¬ (0 : Int) < 0), if_pos hb]
  rw [max_self]
  have hmin : min ((z.length : Int) + b) ((z.length : Int) - 1) = (z.length : Int) + b := by
    omega
  rw [hmin]
  by_cases hc : (0 : Int) ≤ (z.length : Int) + b
  · rw [if_pos hc, Int.toNat_zero, List.drop_zero]
    congr 1
    omega
  · rw [if_neg hc]
    have : ((z.length : Int) + b + 1).toNat = 0 := by omega
    rw [this, List.take_zero]

theorem zrevrange_of_nonneg {z : ZSet} {a b : Int} (ha : 0 ≤ a) (hb : 0 ≤ b) :
    zrevrange z a b =
      (z.drop a.toNat).take (min (b + 1) (z.length : Int) - a).toNat := by
  unfold zrevrange
  simp only
  rw [if_neg (by omega : ¬ a < 0), if_neg (by omega : ¬ b < 0)]
  rw [max_eq_left ha]
  by_cases hc : a ≤ min b ((z.length : Int) - 1)
  · rw [if_pos hc]
    congr 1
    omega
  · rw [if_neg hc]
    by_cases hd : (z.length : Int) ≤ a
    · rw [List.drop_eq_nil_of_le (by omega : z.length ≤ a.toNat), List.take_nil]
    · have : (min (b + 1) (z.length : Int) - a).toNat = 0 := by omega
      rw [this, List.take_zero]

theorem zrevrange_nil (a b : Int) : zrevrange [] a b = [] :=
  List.sublist_nil.mp (zrevrange_sublist [] a b)

/-! ### ZADD point lookup lemmas -/

theorem zscore_insertRev_self {u : String} {s : Int} :
    ∀ {z : ZSet}, (∀ x ∈ z, x.1 ≠ u) → zscore u (insertRev (u, s) z) = some s
  | [], _ => by simp [insertRev, zscore]
  | x :: xs, hne => by
    unfold insertRev
    by_cases h : revLt (u, s) x = true
    · rw [if_pos h]
      simp [zscore]
    · rw [if_neg h]
      unfold zscore
      rw [if_neg (hne x (by simp))]
      exact zscore_insertRev_self (fun y hy => hne y (by simp [hy]))

theorem zscore_insertRev_ne {u : String} {e : Entry} (hne : e.1 ≠ u) :
    ∀ {z : ZSet}, zscore u (insertRev e z) = zscore u z
  | [] => by simp [insertRev, zscore, hne]
  | x :: xs => by
    unfold insertRev
    by_cases h : revLt e x = true
    · rw [if_pos h]
      conv_lhs => rw [zscore]
      rw [if_neg hne]
    · rw [if_neg h]
      unfold zscore
      by_cases hx : x.1 = u
      · rw [if_pos hx, if_pos hx]
      · rw [if_neg hx, if_neg hx]
        exact zscore_insertRev_ne hne

theorem zscore_filter_key_ne {u p : String} (hne : u ≠ p) :
    ∀ {z : ZSet}, zscore u (z.filter (fun x => x.1 ≠ p)) = zscore u z
  | [] => rfl
  | x :: xs => by
    rw [List.filter_cons]
    by_cases hx : x.1 = p
    · rw [if_neg (by simp [hx])]
      conv_rhs => rw [zscore]
      rw [if_neg (by rw [hx]; exact Ne.symm hne), zscore_filter_key_ne hne]
    · rw [if_pos (by simp [hx])]
      unfold zscore
      by_cases hxu : x.1 = u
      · rw [if_pos hxu, if_pos hxu]
      · rw [if_neg hxu, if_neg hxu]
        exact zscore_filter_key_ne hne

theorem zscore_zadd_self (u : String) (s : Int) (z : ZSet) :
    zscore u (zadd u s z) = some s := by
  apply zscore_insertRev_self
  intro x hx
  rw [List.mem_filter] at hx
  simpa using hx.2

theorem zscore_zadd_ne {u p : String} (hne : u ≠ p) (s : Int) (z : ZSet) :
    zscore u (zadd p s z) = zscore u z := by
  rw [zadd, zscore_insertRev_ne (Ne.symm hne)]
  exact zscore_filter_key_ne hne

/-! ### Keyspace frame lemmas -/

theorem getKey_update_self (st : Store) (q p : String) (s : Int) :
    getKey (leaderboardKey q) (update_score st q p s) =
      zadd p s (getKey (leaderboardKey q) st) := by
  unfold update_score
  exact getKey_setKey_self _ _ st

theorem getKey_update_ne (st : Store) {q q' : String} (p : String) (s : Int)
    (hq : q' ≠ q) :
    getKey (leaderboardKey q') (update_score st q p s) =
      getKey (leaderboardKey q') st := by
  unfold update_score
  exact getKey_setKey_ne _ _ _ (fun h => hq (leaderboardKey_inj h)) st

theorem getKey_eq_nil_of_not_hasKey {k : String} :
    ∀ {st : Store}, hasKey k st = false → getKey k st = []
  | [], _ => rfl
  | e :: rest, h => by
    unfold hasKey at h
    rw [Bool.or_eq_false_iff] at h
    unfold getKey
    rw [if_neg (by simpa using h.1)]
    exact getKey_eq_nil_of_not_hasKey h.2

/-! ### Claim theorems -/

/-- C7: `get_user_score` evaluated immediately after
`update_score(q, p, s)` returns exactly `s`, and a later update with
score `s2` replaces the stored score with `s2` rather than accumulating
onto it. -/
theorem C7_update_replaces_score (st : Store) (q p : String) (s s2 : Int) :
    get_user_score (update_score st q p s) q p = s ∧
    get_user_score (update_score (update_score st q p s) q p s2) q p = s2 := by
  constructor
  · unfold get_user_score
    rw [getKey_update_self, zscore_zadd_self]
  · unfold get_user_score
    rw [getKey_update_self, zscore_zadd_self]

/-- C8: for a participant with no entry in the quiz (ZSCORE replies
nil), `get_user_rank` returns -1 and `get_user_score` returns 0; both
operations are total, no error path exists in the model. -/
theorem C8_absent_member_defaults (st : Store) (q u : String)
    (h : zscore u (entriesOf st q) = none) :
    get_user_rank st q u = -1 ∧ get_user_score st q u = 0 := by
  unfold entriesOf at h
  have hr : zrevrank u (getKey (leaderboardKey q) st) = none := zrevrank_eq_none h
  constructor
  · unfold get_user_rank
    rw [hr]
  · unfold get_user_score
    rw [h]

/-- Witness for C8 at a concrete input: quiz "q1" holds only "alice",
so "dave" is absent. -/
theorem C8_absent_member_defaults_witness :
    get_user_rank (applyUpdates [("q1", "alice", 50)]) "q1" "dave" = -1 ∧
    get_user_score (applyUpdates [("q1", "alice", 50)]) "q1" "dave" = 0 :=
  C8_absent_member_defaults (applyUpdates [("q1", "alice", 50)]) "q1" "dave" (by decide)

/-- C9: on a quiz whose leaderboard key was never written, the four read
operations reply score 0, rank -1 and empty sequences, and return the
keyspace unchanged: being built from read-only commands, they create no
key as a side effect. -/
theorem C9_unwritten_quiz_reads (st : Store) (q u : String) (k r m : Int)
    (h : hasKey (leaderboardKey q) st = false) :
    runOp st (Op.getScore q u) = (OpResult.int 0, st) ∧
    runOp st (Op.getRank q u) = (OpResult.int (-1), st) ∧
    runOp st (Op.topK q k) = (OpResult.seq [], st) ∧
    runOp st (Op.window q r m) = (OpResult.seq [], st) := by
  have hk : getKey (leaderboardKey q) st = [] := getKey_eq_nil_of_not_hasKey h
  refine ⟨?_, ?_, ?_, ?_⟩
  · show (OpResult.int (get_user_score st q u), st) = (OpResult.int 0, st)
    unfold get_user_score
    rw [hk]
    rfl
  · show (OpResult.int (get_user_rank st q u), st) = (OpResult.int (-1), st)
    unfold get_user_rank
    rw [hk]
    rfl
  · show (OpResult.seq (get_top_k_players st q k), st) = (OpResult.seq [], st)
    unfold get_top_k_players
    rw [hk, zrevrange_nil]
  · show (OpResult.seq (get_m_users_around_rank st q r m), st)
        = (OpResult.seq [], st)
    unfold get_m_users_around_rank
    rw [hk]
    simp only
    rw [zrevrange_nil]

/-- Witness for C9 at a concrete input: the store only holds quiz "q2",
so reading quiz "q1" finds no key. -/
theorem C9_unwritten_quiz_reads_witness :
    runOp (applyUpdates [("q2", "carol", 70)]) (Op.getScore "q1" "alice")
      = (OpResult.int 0, applyUpdates [("q2", "carol", 70)]) ∧
    runOp (applyUpdates [("q2", "carol", 70)]) (Op.getRank "q1" "alice")
      = (OpResult.int (-1), applyUpdates [("q2", "carol", 70)]) ∧
    runOp (applyUpdates [("q2", "carol", 70)]) (Op.topK "q1" 3)
      = (OpResult.seq [], applyUpdates [("q2", "carol", 70)]) ∧
    runOp (applyUpdates [("q2", "carol", 70)]) (Op.window "q1" 0 2)
      = (OpResult.seq [], applyUpdates [("q2", "carol", 70)]) :=
  C9_unwritten_quiz_reads (applyUpdates [("q2", "carol", 70)]) "q1" "alice" 3 0 2
    (by decide)

/-- C10: `update_score(q, p, s)` only affects participant `p` of quiz
`q`: any other participant of `q` keeps its score, and every query on
any other quiz returns the same result as before the call. -/
theorem C10_update_frame (st : Store) (q p : String) (s : Int) (p' q' u : String)
    (k r m : Int) (hp : p' ≠ p) (hq : q' ≠ q) :
    get_user_score (update_score st q p s) q p' = get_user_score st q p' ∧
    get_user_score (update_score st q p s) q' u = get_user_score st q' u ∧
    get_user_rank (update_score st q p s) q' u = get_user_rank st q' u ∧
    get_top_k_players (update_score st q p s) q' k = get_top_k_players st q' k ∧
    get_m_users_around_rank (update_score st q p s) q' r m
      = get_m_users_around_rank st q' r m := by
  have hk := getKey_update_ne st p s hq
  refine ⟨?_, ?_, ?_, ?_, ?_⟩
  · unfold get_user_score
    rw [getKey_update_self, zscore_zadd_ne hp]
  · unfold get_user_score
    rw [hk]
  · unfold get_user_rank
    rw [hk]
  · unfold get_top_k_players
    rw [hk]
  · unfold get_m_users_around_rank
    rw [hk]

/-- C1 counterexample: participants "bob" and "carol" with equal score
80, inserted in ascending identifier order.  The top-k sequence lists
"carol" first and ZREVRANK gives "carol" rank 0, although "bob" is the
lexicographically smaller identifier and the spec's ascending tie-break
(specLt) puts "bob" first: equal-score ties order by identifier
DESCENDING, not ascending. -/
theorem C1_counterexample :
    get_top_k_players (applyUpdates [("q1", "bob", 80), ("q1", "carol", 80)]) "q1" 2
      = [("carol", 80), ("bob", 80)] ∧
    get_top_k_players (applyUpdates [("q1", "bob", 80), ("q1", "carol", 80)]) "q1" 2
      ≠ [("bob", 80), ("carol", 80)] ∧
    get_user_rank (applyUpdates [("q1", "bob", 80), ("q1", "carol", 80)]) "q1" "carol"
      = 0 ∧
    memLt "bob" "carol" = true ∧
    specLt ("bob", (80 : Int)) ("carol", (80 : Int)) = true := by
  decide

/-- C1 amended: every query result and every rank orders participants by
score descending and, on a score tie, by identifier DESCENDING
(lexicographic), regardless of insertion order: top-k and window outputs
are sorted by `revLt`, and for any two present participants the rank
comparison agrees with `revLt` on their entries. -/
theorem C1_queries_order_desc_desc (st : Store) (q : String) (k r m : Int)
    (u v : String) (su sv : Int) (hwf : WF (entriesOf st q))
    (hu : zscore u (entriesOf st q) = some su)
    (hv : zscore v (entriesOf st q) = some sv) (huv : u ≠ v) :
    WF (get_top_k_players st q k) ∧
    WF (get_m_users_around_rank st q r m) ∧
    (get_user_rank st q u < get_user_rank st q v
      ↔ revLt (u, su) (v, sv) = true) := by
  refine ⟨?_, ?_, ?_⟩
  · exact wf_zrevrange hwf 0 (k - 1)
  · exact wf_zrevrange hwf _ _
  · obtain ⟨i, hi⟩ := zrevrank_isSome hu
    obtain ⟨j, hj⟩ := zrevrank_isSome hv
    obtain ⟨hilt, higet⟩ := zrevrank_get hi hu
    obtain ⟨hjlt, hjget⟩ := zrevrank_get hj hv
    have hru : get_user_rank st q u = (i : Int) := by
      unfold entriesOf at hi
      unfold get_user_rank
      rw [hi]
    have hrv : get_user_rank st q v = (j : Int) := by
      unfold entriesOf at hj
      unfold get_user_rank
      rw [hj]
    rw [hru, hrv, Nat.cast_lt]
    constructor
    · intro hij
      have h2 := List.pairwise_iff_get.mp hwf ⟨i, hilt⟩ ⟨j, hjlt⟩
        (Fin.mk_lt_mk.mpr hij)
      rwa [higet, hjget] at h2
    · intro hrevlt
      rcases Nat.lt_trichotomy i j with hij | hij | hij
      · exact hij
      · exfalso
        subst hij
        have hsame : (entriesOf st q).get ⟨i, hjlt⟩ = (entriesOf st q).get ⟨i, hilt⟩ :=
          rfl
        rw [hsame, higet] at hjget
        exact huv (congrArg Prod.fst hjget)
      · exfalso
        have h2 := List.pairwise_iff_get.mp hwf ⟨j, hjlt⟩ ⟨i, hilt⟩
          (Fin.mk_lt_mk.mpr hij)
        rw [higet, hjget] at h2
        rw [revLt_asymm hrevlt] at h2
        cases h2

/-- Witness for C1 at a concrete input: the three-user quiz with the
equal-score pair ("carol", "bob"): rank "carol" = 0 < rank "bob" = 1 and
revLt ("carol", 80) ("bob", 80) holds. -/
theorem C1_queries_order_desc_desc_witness :
    WF (get_top_k_players
        (applyUpdates [("q1", "alice", 50), ("q1", "bob", 80), ("q1", "carol", 80)])
        "q1" 3) ∧
    WF (get_m_users_around_rank
        (applyUpdates [("q1", "alice", 50), ("q1", "bob", 80), ("q1", "carol", 80)])
        "q1" 1 2) ∧
    (get_user_rank
        (applyUpdates [("q1", "alice", 50), ("q1", "bob", 80), ("q1", "carol", 80)])
        "q1" "carol"
      < get_user_rank
          (applyUpdates [("q1", "alice", 50), ("q1", "bob", 80), ("q1", "carol", 80)])
          "q1" "bob"
      ↔ revLt ("carol", (80 : Int)) ("bob", (80 : Int)) = true) :=
  C1_queries_order_desc_desc
    (applyUpdates [("q1", "alice", 50), ("q1", "bob", 80), ("q1", "carol", 80)])
    "q1" 3 1 2 "carol" "bob" 80 80 (by decide) (by decide) (by decide) (by decide)

/-- C3 counterexample: "bob" and "carol" both at score 80.  Under the
claim's order-key (score desc, identifier asc) no participant is
strictly higher than "bob", yet `get_user_rank` returns 1 for "bob", so
the rank does not count strictly-higher participants under that key. -/
theorem C3_counterexample :
    get_user_rank (applyUpdates [("q1", "bob", 80), ("q1", "carol", 80)]) "q1" "bob"
      = 1 ∧
    ((entriesOf (applyUpdates [("q1", "bob", 80), ("q1", "carol", 80)]) "q1").countP
        (fun e => specLt e ("bob", (80 : Int)))) = 0 ∧
    get_user_rank (applyUpdates [("q1", "bob", 80), ("q1", "carol", 80)]) "q1" "bob"
      ≠ (((entriesOf (applyUpdates [("q1", "bob", 80), ("q1", "carol", 80)])
          "q1").countP (fun e => specLt e ("bob", (80 : Int)))) : Int) := by
  decide

/-- C3 amended: after any sequence of `update_score` calls, the rank of
a present participant equals the number of participants of that quiz
whose order-key is strictly higher under the order the code implements:
score descending, identifier DESCENDING on ties (`revLt`). -/
theorem C3_rank_counts_rev_higher (ops : List (String × String × Int))
    (q u : String) (s : Int)
    (h : zscore u (entriesOf (applyUpdates ops) q) = some s) :
    get_user_rank (applyUpdates ops) q u
      = (((entriesOf (applyUpdates ops) q).countP
          (fun e => revLt e (u, s))) : Int) := by
  have hwf := wf_entriesOf_applyUpdates ops q
  have hrank := zrevrank_eq_countP hwf h
  unfold entriesOf at hrank
  unfold get_user_rank
  rw [hrank]
  unfold entriesOf
  rfl

/-- Witness for C3 at a concrete input: "bob" in the equal-score pair
has rank 1 = the number of entries strictly before it under `revLt`
(namely ("carol", 80)). -/
theorem C3_rank_counts_rev_higher_witness :
    get_user_rank (applyUpdates [("q1", "bob", 80), ("q1", "carol", 80)]) "q1" "bob"
      = (((entriesOf (applyUpdates [("q1", "bob", 80), ("q1", "carol", 80)])
          "q1").countP (fun e => revLt e ("bob", (80 : Int)))) : Int) :=
  C3_rank_counts_rev_higher [("q1", "bob", 80), ("q1", "carol", 80)] "q1" "bob" 80
    (by decide)

/-- C2 counterexample: with one participant in the quiz,
`get_top_k_players` with k = 0 returns the whole leaderboard, not the
empty sequence the claim predicts for k <= 0: ZREVRANGE receives the
stop index k - 1 = -1, which denotes the last element of the set. -/
theorem C2_counterexample :
    get_top_k_players (applyUpdates [("q1", "alice", 50)]) "q1" 0
      = [("alice", 50)] ∧
    get_top_k_players (applyUpdates [("q1", "alice", 50)]) "q1" 0 ≠ [] := by
  decide

/-- C2 amended: for k >= 1, `get_top_k_players` returns the first
min(k, n) entries of the ZREV total order (a prefix, highest score
first, without error for k > n); for k <= 0 the stop index k - 1 is
negative and counts from the end of the set, so the call returns the
first n + k entries (all n entries at k = 0, empty once n + k <= 0). -/
theorem C2_top_k_take (st : Store) (q : String) (k : Int)
    (hwf : WF (entriesOf st q)) :
    WF (get_top_k_players st q k) ∧
    (1 ≤ k → get_top_k_players st q k = (entriesOf st q).take k.toNat) ∧
    (1 ≤ k → (get_top_k_players st q k).length
        = min k.toNat (entriesOf st q).length) ∧
    (k ≤ 0 → get_top_k_players st q k
        = (entriesOf st q).take ((entriesOf st q).length + k).toNat) := by
  have htop : get_top_k_players st q k = zrevrange (entriesOf st q) 0 (k - 1) := rfl
  refine ⟨?_, ?_, ?_, ?_⟩
  · rw [htop]
    exact wf_zrevrange hwf 0 (k - 1)
  · intro hk
    rw [htop, zrevrange_zero_nonneg (by omega)]
    congr 1
    omega
  · intro hk
    rw [htop, zrevrange_zero_nonneg (by omega), List.length_take]
    omega
  · intro hk
    rw [htop, zrevrange_zero_neg (by omega)]
    congr 1
    omega

/-- Witness for C2 at a concrete input: the three-user quiz of the
spec's scenario with k = 2 and k = 0. -/
theorem C2_top_k_take_witness :
    WF (get_top_k_players
      (applyUpdates [("q1", "alice", 50), ("q1", "bob", 80), ("q1", "carol", 80)])
      "q1" 2) ∧
    (1 ≤ (2 : Int) → get_top_k_players
        (applyUpdates [("q1", "alice", 50), ("q1", "bob", 80), ("q1", "carol", 80)])
        "q1" 2
      = (entriesOf
          (applyUpdates [("q1", "alice", 50), ("q1", "bob", 80), ("q1", "carol", 80)])
          "q1").take (2 : Int).toNat) ∧
    (1 ≤ (2 : Int) → (get_top_k_players
        (applyUpdates [("q1", "alice", 50), ("q1", "bob", 80), ("q1", "carol", 80)])
        "q1" 2).length
      = min (2 : Int).toNat (entriesOf
          (applyUpdates [("q1", "alice", 50), ("q1", "bob", 80), ("q1", "carol", 80)])
          "q1").length) ∧
    ((2 : Int) ≤ 0 → get_top_k_players
        (applyUpdates [("q1", "alice", 50), ("q1", "bob", 80), ("q1", "carol", 80)])
        "q1" 2
      = (entriesOf
          (applyUpdates [("q1", "alice", 50), ("q1", "bob", 80), ("q1", "carol", 80)])
          "q1").take ((entriesOf
          (applyUpdates [("q1", "alice", 50), ("q1", "bob", 80), ("q1", "carol", 80)])
          "q1").length + (2 : Int)).toNat) :=
  C2_top_k_take
    (applyUpdates [("q1", "alice", 50), ("q1", "bob", 80), ("q1", "carol", 80)])
    "q1" 2 (by decide)

/-- C4 counterexample: with two participants, a window of width 0 around
rank -1 returns the whole leaderboard (the end index -1 denotes the last
element), while around rank 0 it returns only the first entry — so a
negative center rank is NOT clamped to 0. -/
theorem C4_counterexample :
    get_m_users_around_rank
        (applyUpdates [("q1", "alice", 50), ("q1", "bob", 80)]) "q1" (-1) 0
      = [("bob", 80), ("alice", 50)] ∧
    get_m_users_around_rank
        (applyUpdates [("q1", "alice", 50), ("q1", "bob", 80)]) "q1" 0 0
      = [("bob", 80)] ∧
    get_m_users_around_rank
        (applyUpdates [("q1", "alice", 50), ("q1", "bob", 80)]) "q1" (-1) 0
      ≠ get_m_users_around_rank
          (applyUpdates [("q1", "alice", 50), ("q1", "bob", 80)]) "q1" 0 0 := by
  decide

/-- C4 amended: for a negative center rank (and m >= 0) only the start
bound max(0, center - m//2) is clamped to 0; the end bound
center + m//2 is handed to ZREVRANGE unclamped, where a negative value
counts from the end of the set (-1 = last element).  So the call returns
the prefix of the leaderboard up to that end index — the first
center + m//2 + 1 entries when the end is non-negative, and the first
n + center + m//2 + 1 entries (empty when that is <= 0) when the end is
negative — not the window around rank 0. -/
theorem C4_negative_pivot_not_clamped (st : Store) (q : String) (r m : Int)
    (hm : 0 ≤ m) (hr : r < 0) :
    (0 ≤ r + Int.fdiv m 2 →
      get_m_users_around_rank st q r m
        = (entriesOf st q).take (r + Int.fdiv m 2 + 1).toNat) ∧
    (r + Int.fdiv m 2 < 0 →
      get_m_users_around_rank st q r m
        = (entriesOf st q).take
            (((entriesOf st q).length : Int) + (r + Int.fdiv m 2) + 1).toNat) := by
  have hf : 0 ≤ Int.fdiv m 2 := Int.fdiv_nonneg hm (by omega)
  have hwin : get_m_users_around_rank st q r m
      = zrevrange (entriesOf st q) (max 0 (r - Int.fdiv m 2)) (r + Int.fdiv m 2) :=
    rfl
  have hmax : max (0 : Int) (r - Int.fdiv m 2) = 0 := max_eq_left (by omega)
  constructor
  · intro hpos
    rw [hwin, hmax, zrevrange_zero_nonneg hpos]
  · intro hneg
    rw [hwin, hmax, zrevrange_zero_neg hneg]

/-- Witness for C4 at a concrete input: center rank -1, width 0, on a
two-user quiz. -/
theorem C4_negative_pivot_not_clamped_witness :
    (0 ≤ (-1 : Int) + Int.fdiv 0 2 →
      get_m_users_around_rank
          (applyUpdates [("q1", "alice", 50), ("q1", "bob", 80)]) "q1" (-1) 0
        = (entriesOf (applyUpdates [("q1", "alice", 50), ("q1", "bob", 80)])
            "q1").take ((-1 : Int) + Int.fdiv 0 2 + 1).toNat) ∧
    ((-1 : Int) + Int.fdiv 0 2 < 0 →
      get_m_users_around_rank
          (applyUpdates [("q1", "alice", 50), ("q1", "bob", 80)]) "q1" (-1) 0
        = (entriesOf (applyUpdates [("q1", "alice", 50), ("q1", "bob", 80)])
            "q1").take
            (((entriesOf (applyUpdates [("q1", "alice", 50), ("q1", "bob", 80)])
                "q1").length : Int) + ((-1 : Int) + Int.fdiv 0 2) + 1).toNat) :=
  C4_negative_pivot_not_clamped
    (applyUpdates [("q1", "alice", 50), ("q1", "bob", 80)]) "q1" (-1) 0
    (by decide) (by decide)

/-- C5 counterexample: with one participant, a window of width 0 around
rank 0 returns that participant's entry, and top-k with k = 0 returns
the whole leaderboard — neither is the empty sequence the claim
predicts. -/
theorem C5_counterexample :
    get_m_users_around_rank (applyUpdates [("q1", "alice", 50)]) "q1" 0 0
      = [("alice", 50)] ∧
    get_m_users_around_rank (applyUpdates [("q1", "alice", 50)]) "q1" 0 0 ≠ [] ∧
    get_top_k_players (applyUpdates [("q1", "alice", 50)]) "q1" 0
      = [("alice", 50)] ∧
    get_top_k_players (applyUpdates [("q1", "alice", 50)]) "q1" 0 ≠ [] := by
  decide

/-- C5 amended: neither call errs, but neither returns the empty
sequence: width 0 at a rank r >= 0 yields the single entry at rank r
(empty only when r is past the end), and k = 0 yields the entire
leaderboard. -/
theorem C5_zero_width_zero_k (st : Store) (q : String) (r : Int) (hr : 0 ≤ r) :
    get_m_users_around_rank st q r 0 = ((entriesOf st q).drop r.toNat).take 1 ∧
    get_top_k_players st q 0 = entriesOf st q := by
  constructor
  · have hwin : get_m_users_around_rank st q r 0
        = zrevrange (entriesOf st q) (max 0 (r - Int.fdiv 0 2)) (r + Int.fdiv 0 2) :=
      rfl
    have hf : Int.fdiv 0 2 = 0 := rfl
    have hmax : max (0 : Int) (r - 0) = r := by omega
    rw [hwin, hf, hmax, add_zero, zrevrange_of_nonneg hr hr]
    rcases le_or_lt ((entriesOf st q).length : Int) r with hn | hn
    · rw [List.drop_eq_nil_of_le (by omega : (entriesOf st q).length ≤ r.toNat)]
      rw [List.take_nil, List.take_nil]
    · have h1 : (min (r + 1) ((entriesOf st q).length : Int) - r).toNat = 1 := by
        omega
      rw [h1]
  · have htop : get_top_k_players st q 0 = zrevrange (entriesOf st q) 0 (0 - 1) :=
      rfl
    rw [htop, zrevrange_zero_neg (by omega)]
    have h2 : (((entriesOf st q).length : Int) + (0 - 1) + 1).toNat
        = (entriesOf st q).length := by omega
    rw [h2, List.take_length]

/-- Witness for C5 at a concrete input: rank 0, width 0 and k = 0 on a
one-user quiz. -/
theorem C5_zero_width_zero_k_witness :
    get_m_users_around_rank (applyUpdates [("q1", "alice", 50)]) "q1" 0 0
      = ((entriesOf (applyUpdates [("q1", "alice", 50)]) "q1").drop
          (0 : Int).toNat).take 1 ∧
    get_top_k_players (applyUpdates [("q1", "alice", 50)]) "q1" 0
      = entriesOf (applyUpdates [("q1", "alice", 50)]) "q1" :=
  C5_zero_width_zero_k (applyUpdates [("q1", "alice", 50)]) "q1" 0 (by decide)

/-- C6 counterexample: three participants, center rank 1, width 1: the
returned window is the single entry at rank 1, of length 1, but the
claim's length formula min(w+1, n) = 2 predicts two entries even though
no clipping occurs at either boundary. -/
theorem C6_counterexample :
    get_m_users_around_rank
        (applyUpdates [("q1", "alice", 50), ("q1", "bob", 80), ("q1", "carol", 80)])
        "q1" 1 1
      = [("bob", 80)] ∧
    (get_m_users_around_rank
        (applyUpdates [("q1", "alice", 50), ("q1", "bob", 80), ("q1", "carol", 80)])
        "q1" 1 1).length = 1 ∧
    (1 : Nat) ≠ min (1 + 1) 3 := by
  decide

/-- C6 amended: for r >= 0 and w >= 0 the window is the contiguous run
of entries whose rank lies in [max(0, r - w//2), r + w//2] (floor
division) clipped to [0, n-1], in rank order; its length is
min(r + w//2 + 1, n) - max(0, r - w//2) (never negative), i.e.
min(2*(w//2) + 1, n) adjusted for clipping — for odd w this is w, not
w + 1. -/
theorem C6_window_floor_division (st : Store) (q : String) (r w : Int)
    (hwf : WF (entriesOf st q)) (hr : 0 ≤ r) (hw : 0 ≤ w) :
    get_m_users_around_rank st q r w
      = ((entriesOf st q).drop (max 0 (r - Int.fdiv w 2)).toNat).take
          (min (r + Int.fdiv w 2 + 1) ((entriesOf st q).length : Int)
            - max 0 (r - Int.fdiv w 2)).toNat ∧
    (get_m_users_around_rank st q r w).length
      = (min (r + Int.fdiv w 2 + 1) ((entriesOf st q).length : Int)
          - max 0 (r - Int.fdiv w 2)).toNat ∧
    WF (get_m_users_around_rank st q r w) := by
  have hf : 0 ≤ Int.fdiv w 2 := Int.fdiv_nonneg hw (by omega)
  have hwin : get_m_users_around_rank st q r w
      = zrevrange (entriesOf st q) (max 0 (r - Int.fdiv w 2)) (r + Int.fdiv w 2) :=
    rfl
  have h1 := zrevrange_of_nonneg (z := entriesOf st q)
    (le_max_left 0 (r - Int.fdiv w 2)) (by omega : (0 : Int) ≤ r + Int.fdiv w 2)
  refine ⟨?_, ?_, ?_⟩
  · rw [hwin, h1]
  · rw [hwin, h1, List.length_take, List.length_drop]
    omega
  · rw [hwin]
    exact wf_zrevrange hwf _ _

/-- Witness for C6 at a concrete input: center rank 1, width 1, on the
three-user quiz. -/
theorem C6_window_floor_division_witness :
    get_m_users_around_rank
        (applyUpdates [("q1", "alice", 50), ("q1", "bob", 80), ("q1", "carol", 80)])
        "q1" 1 1
      = ((entriesOf
          (applyUpdates [("q1", "alice", 50), ("q1", "bob", 80), ("q1", "carol", 80)])
          "q1").drop (max 0 ((1 : Int) - Int.fdiv 1 2)).toNat).take
          (min ((1 : Int) + Int.fdiv 1 2 + 1)
              ((entriesOf (applyUpdates
                [("q1", "alice", 50), ("q1", "bob", 80), ("q1", "carol", 80)])
                "q1").length : Int)
            - max 0 ((1 : Int) - Int.fdiv 1 2)).toNat ∧
    (get_m_users_around_rank
        (applyUpdates [("q1", "alice", 50), ("q1", "bob", 80), ("q1", "carol", 80)])
        "q1" 1 1).length
      = (min ((1 : Int) + Int.fdiv 1 2 + 1)
            ((entriesOf (applyUpdates
              [("q1", "alice", 50), ("q1", "bob", 80), ("q1", "carol", 80)])
              "q1").length : Int)
          - max 0 ((1 : Int) - Int.fdiv 1 2)).toNat ∧
    WF (get_m_users_around_rank
        (applyUpdates [("q1", "alice", 50), ("q1", "bob", 80), ("q1", "carol", 80)])
        "q1" 1 1) :=
  C6_window_floor_division
    (applyUpdates [("q1", "alice", 50), ("q1", "bob", 80), ("q1", "carol", 80)])
    "q1" 1 1 (by decide) (by decide) (by decide)

/-- Witness for C10 at a concrete input: updating "alice" in "q1" leaves
"bob" in "q1" and all queries on "q2" untouched. -/
theorem C10_update_frame_witness :
    get_user_score (update_score [] "q1" "alice" 50) "q1" "bob"
      = get_user_score [] "q1" "bob" ∧
    get_user_score (update_score [] "q1" "alice" 50) "q2" "carol"
      = get_user_score [] "q2" "carol" ∧
    get_user_rank (update_score [] "q1" "alice" 50) "q2" "carol"
      = get_user_rank [] "q2" "carol" ∧
    get_top_k_players (update_score [] "q1" "alice" 50) "q2" 1
      = get_top_k_players [] "q2" 1 ∧
    get_m_users_around_rank (update_score [] "q1" "alice" 50) "q2" 0 0
      = get_m_users_around_rank [] "q2" 0 0 :=
  C10_update_frame [] "q1" "alice" 50 "bob" "q2" "carol" 1 0 0 (by decide) (by decide)

end Quizplay
